import Mathlib

/-!
Formal model of the ICM (Independent Chip Model) calculator of the MTT poker
solver backend (class `ICMCalculator`).

Chip stacks, payouts and equities are modelled as exact rationals; the
JavaScript `Array.prototype.reduce` loops with addition are modelled as sums
(addition on ℚ is commutative and associative, so the accumulation order of
the loops is immaterial).  The recursion of `calculatePlayerEquity` /
`calculateInMoneyEquity` removes exactly one player per level, so passing the
length of the stack list as structural fuel is a faithful rendering of the
recursion; the fuel-irrelevance lemmas below make this precise.

JavaScript array accesses that the source guards with `|| 0` are modelled with
`List.getD _ 0`.  The two unguarded accesses (`payouts[0]` in the `n === 1`
branch of `calculateInMoneyEquity`, `payouts[0]` in the `n === 2` branch) are
also modelled with `List.getD _ 0`; they differ from JavaScript (which would
produce `undefined`/NaN) only when `payouts` is empty there, a situation none
of the theorems below exercises (the special-value analysis at the end of the
file models the `undefined`/NaN behaviour exactly).
-/

namespace ICM

/-- Loop body of `ICMCalculator.calculateEliminationProbabilities`: the
harmonic mean of the *other* players' stacks, then
`harmonicMean / (harmonicMean + stacks[i])`. -/
def rawElimProb (stacks' : List ℚ) (i : ℕ) : ℚ :=
  let otherStacks := stacks'.eraseIdx i
  let harmonicMean := (otherStacks.length : ℚ) / (otherStacks.map (fun s => 1 / s)).sum
  harmonicMean / (harmonicMean + stacks'.getD i 0)

/-- `ICMCalculator.calculateEliminationProbabilities`: raw probabilities for
every index, then normalization by their sum. -/
def calculateEliminationProbabilities (stacks' : List ℚ) : List ℚ :=
  let probs := (List.range stacks'.length).map (rawElimProb stacks')
  probs.map (fun p => p / probs.sum)

/-- Index remapping after player `i` is removed
(source: `playerIndex > i ? playerIndex - 1 : playerIndex`). -/
def adjustIndex (playerIndex i : ℕ) : ℕ :=
  if playerIndex > i then playerIndex - 1 else playerIndex

/-- Fuel-indexed rendering of `ICMCalculator.calculateInMoneyEquity`.  The
source recursion always passes a stack list one element shorter, so fuel equal
to the number of players suffices (`inMoneyGo_fuel`). -/
def inMoneyGo : ℕ → List ℚ → List ℚ → ℕ → ℚ
  | 0, _, _, _ => 0
  | fuel + 1, stacks', payouts, playerIndex =>
    let n := stacks'.length
    if n = 1 then payouts.getD 0 0
    else if n = 2 then
      let totalChips := stacks'.getD 0 0 + stacks'.getD 1 0
      let winProb := stacks'.getD playerIndex 0 / totalChips
      winProb * payouts.getD 0 0 + (1 - winProb) * payouts.getD 1 0
    else
      let probs := calculateEliminationProbabilities stacks'
      ∑ i ∈ Finset.range n,
        if i = playerIndex then probs.getD i 0 * payouts.getD (n - 1) 0
        else
          let newStacks := stacks'.eraseIdx i
          probs.getD i 0 *
            inMoneyGo fuel newStacks (payouts.take newStacks.length)
              (adjustIndex playerIndex i)

/-- Fuel-indexed rendering of `ICMCalculator.calculatePlayerEquity`. -/
def equityGo : ℕ → List ℚ → List ℚ → ℕ → ℚ
  | 0, _, _, _ => 0
  | fuel + 1, stacks', payouts, playerIndex =>
    let n := stacks'.length
    if n = 1 then payouts.getD 0 0
    else if n ≤ payouts.length then inMoneyGo (fuel + 1) stacks' payouts playerIndex
    else
      let probs := calculateEliminationProbabilities stacks'
      ∑ i ∈ Finset.range n,
        if i = playerIndex then 0
        else
          let newStacks := stacks'.eraseIdx i
          let newPayouts := payouts.take (min payouts.length newStacks.length)
          if 0 < newPayouts.length then
            probs.getD i 0 *
              equityGo fuel newStacks newPayouts (adjustIndex playerIndex i)
          else 0

/-- `ICMCalculator.calculatePlayerEquity` (fuel instantiated at the number of
players, which bounds the recursion depth). -/
def calculatePlayerEquity (stacks' payouts : List ℚ) (playerIndex : ℕ) : ℚ :=
  equityGo stacks'.length stacks' payouts playerIndex

/-- `ICMCalculator.calculateInMoneyEquity`. -/
def calculateInMoneyEquity (stacks' payouts : List ℚ) (playerIndex : ℕ) : ℚ :=
  inMoneyGo stacks'.length stacks' payouts playerIndex

/-- The four-field result of `ICMCalculator.calculateICM`. -/
structure ICMResult where
  equity : ℚ
  chipEV : ℚ
  dollarEV : ℚ
  riskPremium : ℚ
deriving DecidableEq

/-- `ICMCalculator.calculateICM`; the `throw new Error(...)` on empty input is
modelled with `Except.error`.  (The source has `playerIndex = 0` as default
argument; the model always takes the index explicitly.) -/
def calculateICM (stacks' payouts : List ℚ) (playerIndex : ℕ) :
    Except String ICMResult :=
  let totalChips := stacks'.sum
  let playerStack := stacks'.getD playerIndex 0
  if payouts.length = 0 ∨ stacks'.length = 0 then
    Except.error "Invalid input: empty stacks or payouts"
  else
    let equity := calculatePlayerEquity stacks' payouts playerIndex
    let chipEV := (playerStack / totalChips) * payouts.sum
    let dollarEV := equity
    let riskPremium := chipEV - dollarEV
    Except.ok ⟨equity, chipEV, dollarEV, riskPremium⟩

/-- `ICMCalculator.calculateBubbleFactor`. -/
def calculateBubbleFactor (stacks' payouts : List ℚ) (playerIndex : ℕ) : ℚ :=
  let totalChips := stacks'.sum
  let playerStack := stacks'.getD playerIndex 0
  let chipEquity := (playerStack / totalChips) * payouts.sum
  let icmEquity := calculatePlayerEquity stacks' payouts playerIndex
  if icmEquity > 0 then chipEquity / icmEquity else 1

/-- Result record of `ICMCalculator.calculatePushFoldEquity`. -/
structure PushFoldResult where
  pushEV : ℚ
  foldEV : ℚ
deriving DecidableEq

/-- `ICMCalculator.calculatePushFoldEquity`; `callEquity` is the source's
hard-coded simplification constant `0.5`. -/
def calculatePushFoldEquity
    (heroStack villainStack blinds antes callingRange foldEquity : ℚ) :
    PushFoldResult :=
  let pot := blinds + antes
  let foldEV : ℚ := 0
  let callEquity : ℚ := 1 / 2
  let effectiveStack := min heroStack villainStack
  let pushEV := foldEquity * pot +
    (1 - foldEquity) *
      (callEquity * (pot + effectiveStack) - (1 - callEquity) * effectiveStack)
  ⟨pushEV, foldEV⟩

/-- The raw elimination probability exactly as the specification words it:
`H_i = (n-1) / Σ_{j ≠ i} (1/stacks[j])` and `p_i = H_i / (H_i + stacks[i])`.
Written independently of `rawElimProb` (Finset sum over the erased index set)
so that the refinement theorem for the elimination-probability vector compares
the source rendering against the specification's formula. -/
def specRawElimProb (stacks' : List ℚ) (i : ℕ) : ℚ :=
  let n := stacks'.length
  let H := ((n : ℚ) - 1) / ∑ j ∈ (Finset.range n).erase i, 1 / stacks'.getD j 0
  H / (H + stacks'.getD i 0)

/-- The specification's elimination probability for player `i`: the raw
probability normalized by the sum of all raw probabilities. -/
def specElimProb (stacks' : List ℚ) (i : ℕ) : ℚ :=
  specRawElimProb stacks' i / ∑ k ∈ Finset.range stacks'.length, specRawElimProb stacks' k

end ICM

namespace ICM

/-! ### IEEE-754 special-value model

The degenerate-zero-stack claim is about JavaScript `number` (binary64)
behaviour: a `0` stack feeds a `1/0` term into the harmonic-mean computation
and the claim is that no NaN results.  NaN and ±Infinity production and
propagation in IEEE-754 arithmetic depend only on the zero / sign / finite /
infinite / NaN classification of the operands, never on rounding, so a model
that carries finite values as exact (unreduced) integer fractions and applies
the IEEE-754 special-value rules decides NaN-ness of every intermediate
exactly.  Negative zero is not tracked: the computation below never produces a
negative finite value before a division, so `-0` cannot arise where it would
matter (as a divisor). -/

/-- A JavaScript number: NaN, ±Infinity, or a finite value carried as the
integer fraction `num / den` (`den > 0` for every value the model builds). -/
inductive JsNum where
  | nan : JsNum
  | inf : JsNum
  | ninf : JsNum
  | fin : ℤ → ℤ → JsNum
deriving DecidableEq

/-- IEEE-754 addition on the special-value model. -/
def JsNum.add : JsNum → JsNum → JsNum
  | nan, _ => nan
  | _, nan => nan
  | inf, ninf => nan
  | ninf, inf => nan
  | inf, _ => inf
  | _, inf => inf
  | ninf, _ => ninf
  | _, ninf => ninf
  | fin a b, fin c d => fin (a * d + c * b) (b * d)

/-- IEEE-754 negation. -/
def JsNum.neg : JsNum → JsNum
  | nan => nan
  | inf => ninf
  | ninf => inf
  | fin a b => fin (-a) b

/-- IEEE-754 subtraction. -/
def JsNum.sub (x y : JsNum) : JsNum := x.add y.neg

/-- IEEE-754 multiplication (`±∞ * 0 = NaN`; the sign of a finite fraction is
the sign of `num * den`). -/
def JsNum.mul : JsNum → JsNum → JsNum
  | nan, _ => nan
  | _, nan => nan
  | inf, inf => inf
  | inf, ninf => ninf
  | ninf, inf => ninf
  | ninf, ninf => inf
  | inf, fin a b => if a = 0 then nan else if 0 < a * b then inf else ninf
  | fin a b, inf => if a = 0 then nan else if 0 < a * b then inf else ninf
  | ninf, fin a b => if a = 0 then nan else if 0 < a * b then ninf else inf
  | fin a b, ninf => if a = 0 then nan else if 0 < a * b then ninf else inf
  | fin a b, fin c d => fin (a * c) (b * d)

/-- IEEE-754 division (`∞/∞ = NaN`, `0/0 = NaN`, `x/0 = ±∞` for `x ≠ 0`,
`x/±∞ = 0` for finite `x`; division by a zero value divides by `+0` since the
model does not build negative zeros). -/
def JsNum.div : JsNum → JsNum → JsNum
  | nan, _ => nan
  | _, nan => nan
  | inf, inf => nan
  | inf, ninf => nan
  | ninf, inf => nan
  | ninf, ninf => nan
  | inf, fin c d => if 0 ≤ c * d then inf else ninf
  | ninf, fin c d => if 0 ≤ c * d then ninf else inf
  | fin _ _, inf => fin 0 1
  | fin _ _, ninf => fin 0 1
  | fin a b, fin c d =>
    if c = 0 then
      if a = 0 then nan else if 0 < a * b then inf else ninf
    else fin (a * d) (b * c)

/-- NaN test. -/
def JsNum.isNaN : JsNum → Bool
  | nan => true
  | _ => false

/-- Value-zero test (used for JavaScript falsiness). -/
def JsNum.isZero : JsNum → Bool
  | fin a _ => a == 0
  | _ => false

/-- JavaScript array read: an out-of-range access yields `undefined`, which
behaves as NaN in every arithmetic context. -/
def jsGet (l : List JsNum) (i : ℕ) : JsNum := (l.get? i).getD JsNum.nan

/-- JavaScript `arr[i] || 0`: `undefined`, NaN and `0` are falsy and replaced
by `0`. -/
def jsGetOr0 (l : List JsNum) (i : ℕ) : JsNum :=
  match l.get? i with
  | none => JsNum.fin 0 1
  | some v => if v.isNaN || v.isZero then JsNum.fin 0 1 else v

/-- JavaScript `reduce((sum, x) => sum + x, 0)`: a left fold, kept as a fold
because addition on the special-value model is not associative. -/
def jsSum (l : List JsNum) : JsNum := l.foldl JsNum.add (JsNum.fin 0 1)

/-- Special-value model of the loop body of
`calculateEliminationProbabilities`. -/
def rawElimProbJs (stacks' : List JsNum) (i : ℕ) : JsNum :=
  let otherStacks := stacks'.eraseIdx i
  let harmonicMean :=
    JsNum.div (JsNum.fin (otherStacks.length : ℤ) 1)
      (otherStacks.foldl (fun acc s => acc.add (JsNum.div (JsNum.fin 1 1) s))
        (JsNum.fin 0 1))
  harmonicMean.div (harmonicMean.add (jsGet stacks' i))

/-- Special-value model of `calculateEliminationProbabilities`. -/
def elimProbsJs (stacks' : List JsNum) : List JsNum :=
  let probs := (List.range stacks'.length).map (rawElimProbJs stacks')
  probs.map (fun p => p.div (jsSum probs))

/-- Special-value model of `calculateInMoneyEquity` (fuel-indexed like
`inMoneyGo`; loops kept as left folds). -/
def inMoneyGoJs : ℕ → List JsNum → List JsNum → ℕ → JsNum
  | 0, _, _, _ => JsNum.fin 0 1
  | fuel + 1, stacks', payouts, playerIndex =>
    let n := stacks'.length
    if n = 1 then jsGet payouts 0
    else if n = 2 then
      let totalChips := (jsGet stacks' 0).add (jsGet stacks' 1)
      let winProb := (jsGet stacks' playerIndex).div totalChips
      (winProb.mul (jsGet payouts 0)).add
        (((JsNum.fin 1 1).sub winProb).mul (jsGetOr0 payouts 1))
    else
      let probs := elimProbsJs stacks'
      (List.range n).foldl
        (fun acc i =>
          if i = playerIndex then
            acc.add ((jsGet probs i).mul (jsGetOr0 payouts (n - 1)))
          else
            let newStacks := stacks'.eraseIdx i
            acc.add ((jsGet probs i).mul
              (inMoneyGoJs fuel newStacks (payouts.take newStacks.length)
                (adjustIndex playerIndex i))))
        (JsNum.fin 0 1)

/-- Special-value model of `calculatePlayerEquity` (fuel-indexed like
`equityGo`). -/
def equityGoJs : ℕ → List JsNum → List JsNum → ℕ → JsNum
  | 0, _, _, _ => JsNum.fin 0 1
  | fuel + 1, stacks', payouts, playerIndex =>
    let n := stacks'.length
    if n = 1 then jsGetOr0 payouts 0
    else if n ≤ payouts.length then inMoneyGoJs (fuel + 1) stacks' payouts playerIndex
    else
      let probs := elimProbsJs stacks'
      (List.range n).foldl
        (fun acc i =>
          if i = playerIndex then acc
          else
            let newStacks := stacks'.eraseIdx i
            let newPayouts := payouts.take (min payouts.length newStacks.length)
            if 0 < newPayouts.length then
              acc.add ((jsGet probs i).mul
                (equityGoJs fuel newStacks newPayouts (adjustIndex playerIndex i)))
            else acc)
        (JsNum.fin 0 1)

/-- Result record of `calculateICM` in the special-value model. -/
structure ICMResultJs where
  equity : JsNum
  chipEV : JsNum
  dollarEV : JsNum
  riskPremium : JsNum
deriving DecidableEq

/-- Special-value model of `calculateICM`. -/
def calculateICMJs (stacks' payouts : List JsNum) (playerIndex : ℕ) :
    Except String ICMResultJs :=
  let totalChips := jsSum stacks'
  let playerStack := jsGet stacks' playerIndex
  if payouts.length = 0 ∨ stacks'.length = 0 then
    Except.error "Invalid input: empty stacks or payouts"
  else
    let equity := equityGoJs stacks'.length stacks' payouts playerIndex
    let chipEV := (playerStack.div totalChips).mul (jsSum payouts)
    let dollarEV := equity
    let riskPremium := chipEV.sub dollarEV
    Except.ok ⟨equity, chipEV, dollarEV, riskPremium⟩

/-- Holds when a `calculateICM` call succeeded and none of the four returned
fields is NaN. -/
def okNoNaN : Except String ICMResultJs → Bool
  | Except.ok v =>
    !(v.equity.isNaN || v.chipEV.isNaN || v.dollarEV.isNaN || v.riskPremium.isNaN)
  | Except.error _ => false

end ICM

namespace ICM

/-! ### Basic list lemmas -/

lemma getD_map_range (f : ℕ → ℚ) {n i : ℕ} (h : i < n) :
    ((List.range n).map f).getD i 0 = f i := by
  rw [List.getD_eq_getElem?_getD, List.getElem?_map, List.getElem?_range h]
  rfl

lemma sum_map_range (f : ℕ → ℚ) (n : ℕ) :
    ((List.range n).map f).sum = ∑ i ∈ Finset.range n, f i := by
  induction n with
  | zero => simp
  | succ m ih =>
    rw [List.range_succ, List.map_append, List.sum_append, Finset.sum_range_succ, ih]
    simp

lemma sum_map_div (l : List ℚ) (c : ℚ) :
    (l.map (fun x => x / c)).sum = l.sum / c := by
  induction l with
  | nil => simp
  | cons a t ih => simp [ih, add_div]

lemma eraseIdx_pos {S : List ℚ} (hpos : ∀ s ∈ S, 0 < s) (i : ℕ) :
    ∀ s ∈ S.eraseIdx i, 0 < s :=
  fun s hs => hpos s (List.mem_of_mem_eraseIdx hs)

lemma getD_mem {S : List ℚ} {i : ℕ} (h : i < S.length) : S.getD i 0 ∈ S := by
  rw [List.getD_eq_getElem _ _ h]
  exact List.getElem_mem h

lemma getD_pos {S : List ℚ} (hpos : ∀ s ∈ S, 0 < s) {i : ℕ} (h : i < S.length) :
    0 < S.getD i 0 :=
  hpos _ (getD_mem h)

/-! ### Elimination-probability lemmas -/

lemma elim_length (S : List ℚ) :
    (calculateEliminationProbabilities S).length = S.length := by
  simp [calculateEliminationProbabilities]

lemma elim_getD (S : List ℚ) {i : ℕ} (hi : i < S.length) :
    (calculateEliminationProbabilities S).getD i 0 =
      rawElimProb S i / ∑ k ∈ Finset.range S.length, rawElimProb S k := by
  simp only [calculateEliminationProbabilities]
  rw [List.map_map, getD_map_range _ hi, ← sum_map_range]
  rfl

lemma rawElimProb_pos {S : List ℚ} (hpos : ∀ s ∈ S, 0 < s) (h2 : 2 ≤ S.length)
    {i : ℕ} (hi : i < S.length) : 0 < rawElimProb S i := by
  have hlen : (S.eraseIdx i).length = S.length - 1 := List.length_eraseIdx_of_lt hi
  have hne : S.eraseIdx i ≠ [] := by
    intro h
    rw [h] at hlen
    simp at hlen
    omega
  have hsum : 0 < ((S.eraseIdx i).map (fun s => 1 / s)).sum := by
    apply List.sum_pos
    · intro x hx
      obtain ⟨s, hs, rfl⟩ := List.mem_map.mp hx
      have hs0 := eraseIdx_pos hpos i s hs
      positivity
    · simpa using hne
  have hH : 0 < ((S.eraseIdx i).length : ℚ) / ((S.eraseIdx i).map (fun s => 1 / s)).sum := by
    apply div_pos _ hsum
    rw [hlen]
    have : 1 ≤ S.length - 1 := by omega
    exact_mod_cast Nat.lt_of_lt_of_le Nat.zero_lt_one this
  simp only [rawElimProb]
  exact div_pos hH (by have := getD_pos hpos hi; linarith)

lemma rawElimSum_pos {S : List ℚ} (hpos : ∀ s ∈ S, 0 < s) (h2 : 2 ≤ S.length) :
    0 < ∑ k ∈ Finset.range S.length, rawElimProb S k :=
  Finset.sum_pos (fun k hk => rawElimProb_pos hpos h2 (Finset.mem_range.mp hk))
    (Finset.nonempty_range_iff.mpr (by omega))

lemma elim_getD_pos {S : List ℚ} (hpos : ∀ s ∈ S, 0 < s) (h2 : 2 ≤ S.length)
    {i : ℕ} (hi : i < S.length) :
    0 < (calculateEliminationProbabilities S).getD i 0 := by
  rw [elim_getD S hi]
  exact div_pos (rawElimProb_pos hpos h2 hi) (rawElimSum_pos hpos h2)

lemma elim_sum_one {S : List ℚ} (hpos : ∀ s ∈ S, 0 < s) (h2 : 2 ≤ S.length) :
    ∑ i ∈ Finset.range S.length, (calculateEliminationProbabilities S).getD i 0 = 1 := by
  have hT := rawElimSum_pos hpos h2
  rw [Finset.sum_congr rfl (fun i hi => elim_getD S (Finset.mem_range.mp hi)),
    ← Finset.sum_div, div_self hT.ne']

lemma elim_list_sum_one {S : List ℚ} (hpos : ∀ s ∈ S, 0 < s) (h2 : 2 ≤ S.length) :
    (calculateEliminationProbabilities S).sum = 1 := by
  simp only [calculateEliminationProbabilities]
  rw [List.map_map]
  have : ((fun p => p / ((List.range S.length).map (rawElimProb S)).sum) ∘ rawElimProb S)
      = fun k => rawElimProb S k / ∑ j ∈ Finset.range S.length, rawElimProb S j := by
    funext k
    simp [sum_map_range]
  rw [this, sum_map_range, ← Finset.sum_div, div_self (rawElimSum_pos hpos h2).ne']

end ICM

namespace ICM

/-! ### Unfolding lemmas for the equity recursion (fuel hidden) -/

lemma cpe_len_one {S P : List ℚ} (p : ℕ) (h : S.length = 1) :
    calculatePlayerEquity S P p = P.getD 0 0 := by
  rw [calculatePlayerEquity, h]
  simp [equityGo, h]

lemma cpe_inMoney {S P : List ℚ} (p : ℕ) (h1 : S.length ≠ 1) (h2 : S.length ≤ P.length) :
    calculatePlayerEquity S P p = calculateInMoneyEquity S P p := by
  rw [calculatePlayerEquity, calculateInMoneyEquity]
  rcases Nat.eq_zero_or_pos S.length with h0 | h0
  · rw [h0]
    simp [equityGo, inMoneyGo, h0]
  · obtain ⟨m, hm⟩ : ∃ m, S.length = m + 1 := ⟨S.length - 1, by omega⟩
    rw [hm]
    simp only [equityGo]
    rw [if_neg h1, if_pos h2]

lemma ime_len_one {S P : List ℚ} (p : ℕ) (h : S.length = 1) :
    calculateInMoneyEquity S P p = P.getD 0 0 := by
  rw [calculateInMoneyEquity, h]
  simp [inMoneyGo, h]

lemma ime_len_two {S P : List ℚ} (p : ℕ) (h : S.length = 2) :
    calculateInMoneyEquity S P p =
      S.getD p 0 / (S.getD 0 0 + S.getD 1 0) * P.getD 0 0 +
      (1 - S.getD p 0 / (S.getD 0 0 + S.getD 1 0)) * P.getD 1 0 := by
  rw [calculateInMoneyEquity, h]
  simp [inMoneyGo, h]

lemma ime_ge_three {S P : List ℚ} (p : ℕ) (h : 3 ≤ S.length) :
    calculateInMoneyEquity S P p = ∑ i ∈ Finset.range S.length,
      if i = p then
        (calculateEliminationProbabilities S).getD i 0 * P.getD (S.length - 1) 0
      else
        (calculateEliminationProbabilities S).getD i 0 *
          calculateInMoneyEquity (S.eraseIdx i) (P.take (S.length - 1)) (adjustIndex p i) := by
  obtain ⟨m, hm⟩ : ∃ m, S.length = m + 1 := ⟨S.length - 1, by omega⟩
  rw [calculateInMoneyEquity, hm]
  simp only [inMoneyGo]
  rw [if_neg (by omega), if_neg (by omega)]
  simp only [hm, Nat.add_sub_cancel]
  apply Finset.sum_congr rfl
  intro i hi
  have hi' : i < S.length := by
    rw [hm]
    exact Finset.mem_range.mp hi
  have hlen : (S.eraseIdx i).length = m := by
    rw [List.length_eraseIdx_of_lt hi', hm]
    omega
  by_cases hip : i = p
  · rw [if_pos hip, if_pos hip]
  · rw [if_neg hip, if_neg hip, hlen, calculateInMoneyEquity, hlen]

lemma cpe_general {S P : List ℚ} (p : ℕ) (h1 : 2 ≤ S.length) (h2 : P.length < S.length)
    (h3 : P ≠ []) :
    calculatePlayerEquity S P p = ∑ i ∈ Finset.range S.length,
      if i = p then 0
      else
        (calculateEliminationProbabilities S).getD i 0 *
          calculatePlayerEquity (S.eraseIdx i) P (adjustIndex p i) := by
  obtain ⟨m, hm⟩ : ∃ m, S.length = m + 1 := ⟨S.length - 1, by omega⟩
  rw [calculatePlayerEquity, hm]
  simp only [equityGo]
  rw [if_neg (by omega), if_neg (by omega)]
  simp only [hm]
  apply Finset.sum_congr rfl
  intro i hi
  have hi' : i < S.length := by
    rw [hm]
    exact Finset.mem_range.mp hi
  have hlen : (S.eraseIdx i).length = m := by
    rw [List.length_eraseIdx_of_lt hi', hm]
    omega
  by_cases hip : i = p
  · rw [if_pos hip, if_pos hip]
  · rw [if_neg hip, if_neg hip, hlen]
    have hPm : P.length ≤ m := by omega
    have htake : P.take (min P.length m) = P := by
      rw [min_eq_left hPm, List.take_length]
    rw [htake, if_pos (List.length_pos.mpr h3), calculatePlayerEquity, hlen]

end ICM

namespace ICM

/-! ### Fuel irrelevance: recursion depth is bounded by the player count -/

lemma inMoneyGo_len_zero (fuel : ℕ) {S : List ℚ} (P : List ℚ) (p : ℕ) (h : S.length = 0) :
    inMoneyGo fuel S P p = 0 := by
  cases fuel with
  | zero => rfl
  | succ m => simp [inMoneyGo, h]

lemma equityGo_len_zero (fuel : ℕ) {S : List ℚ} (P : List ℚ) (p : ℕ) (h : S.length = 0) :
    equityGo fuel S P p = 0 := by
  cases fuel with
  | zero => rfl
  | succ m =>
    simp only [equityGo]
    rw [if_neg (by omega), if_pos (by omega)]
    exact inMoneyGo_len_zero (m + 1) P p h

lemma inMoneyGo_fuel : ∀ (N fuel : ℕ) (S P : List ℚ) (p : ℕ), S.length ≤ N →
    S.length ≤ fuel → inMoneyGo fuel S P p = calculateInMoneyEquity S P p := by
  intro N
  induction N with
  | zero =>
    intro fuel S P p hN hf
    have h0 : S.length = 0 := by omega
    rw [inMoneyGo_len_zero fuel P p h0, calculateInMoneyEquity, h0,
      inMoneyGo_len_zero 0 P p h0]
  | succ N ih =>
    intro fuel S P p hN hf
    by_cases h0 : S.length = 0
    · rw [inMoneyGo_len_zero fuel P p h0, calculateInMoneyEquity, h0,
        inMoneyGo_len_zero 0 P p h0]
    · obtain ⟨m, hfm⟩ : ∃ m, fuel = m + 1 := ⟨fuel - 1, by omega⟩
      subst hfm
      by_cases h1 : S.length = 1
      · rw [ime_len_one p h1]
        simp [inMoneyGo, h1]
      · by_cases h2 : S.length = 2
        · rw [ime_len_two p h2]
          simp [inMoneyGo, h2]
        · have h3 : 3 ≤ S.length := by omega
          rw [ime_ge_three p h3]
          simp only [inMoneyGo]
          rw [if_neg h1, if_neg h2]
          apply Finset.sum_congr rfl
          intro i hi
          have hi' : i < S.length := Finset.mem_range.mp hi
          have hlen : (S.eraseIdx i).length = S.length - 1 :=
            List.length_eraseIdx_of_lt hi'
          by_cases hip : i = p
          · rw [if_pos hip, if_pos hip]
          · rw [if_neg hip, if_neg hip, hlen]
            congr 1
            exact ih m (S.eraseIdx i) (P.take (S.length - 1)) (adjustIndex p i)
              (by omega) (by omega)

lemma equityGo_fuel : ∀ (N fuel : ℕ) (S P : List ℚ) (p : ℕ), S.length ≤ N →
    S.length ≤ fuel → equityGo fuel S P p = calculatePlayerEquity S P p := by
  intro N
  induction N with
  | zero =>
    intro fuel S P p hN hf
    have h0 : S.length = 0 := by omega
    rw [equityGo_len_zero fuel P p h0, calculatePlayerEquity, h0,
      equityGo_len_zero 0 P p h0]
  | succ N ih =>
    intro fuel S P p hN hf
    by_cases h0 : S.length = 0
    · rw [equityGo_len_zero fuel P p h0, calculatePlayerEquity, h0,
        equityGo_len_zero 0 P p h0]
    · obtain ⟨m, hfm⟩ : ∃ m, fuel = m + 1 := ⟨fuel - 1, by omega⟩
      subst hfm
      by_cases h1 : S.length = 1
      · rw [cpe_len_one p h1]
        simp [equityGo, h1]
      · by_cases h2 : S.length ≤ P.length
        · rw [cpe_inMoney p h1 h2]
          simp only [equityGo]
          rw [if_neg h1, if_pos h2]
          exact inMoneyGo_fuel S.length (m + 1) S P p le_rfl (by omega)
        · push_neg at h2
          simp only [equityGo]
          rw [if_neg h1, if_neg (by omega)]
          rw [calculatePlayerEquity]
          obtain ⟨k, hk⟩ : ∃ k, S.length = k + 1 := ⟨S.length - 1, by omega⟩
          rw [hk]
          simp only [equityGo]
          rw [if_neg h1, if_neg (by omega)]
          rw [show Finset.range (k + 1) = Finset.range S.length by rw [hk]]
          apply Finset.sum_congr rfl
          intro i hi
          have hi' : i < S.length := Finset.mem_range.mp hi
          have hlen : (S.eraseIdx i).length = S.length - 1 :=
            List.length_eraseIdx_of_lt hi'
          by_cases hip : i = p
          · rw [if_pos hip, if_pos hip]
          · rw [if_neg hip, if_neg hip]
            by_cases hNP : 0 < (P.take (min P.length (S.eraseIdx i).length)).length
            · rw [if_pos hNP, if_pos hNP]
              congr 1
              rw [ih m (S.eraseIdx i) (P.take (min P.length (S.eraseIdx i).length))
                  (adjustIndex p i) (by omega) (by omega),
                ih k (S.eraseIdx i) (P.take (min P.length (S.eraseIdx i).length))
                  (adjustIndex p i) (by omega) (by omega)]
            · rw [if_neg hNP, if_neg hNP]

end ICM

namespace ICM

/-! ### Conservation of total equity -/

lemma sum_range_erase_adjust (n j : ℕ) (hj : j < n) (h : ℕ → ℚ) :
    ∑ k ∈ (Finset.range n).erase j, h (adjustIndex k j) =
      ∑ i ∈ Finset.range (n - 1), h i := by
  apply Finset.sum_nbij' (fun k => adjustIndex k j) (fun i => if j ≤ i then i + 1 else i)
  · intro a ha
    simp only [Finset.mem_erase, Finset.mem_range] at ha
    simp only [adjustIndex, Finset.mem_range]
    split_ifs <;> omega
  · intro b hb
    simp only [Finset.mem_range] at hb
    simp only [Finset.mem_erase, Finset.mem_range]
    split_ifs <;> omega
  · intro a ha
    simp only [Finset.mem_erase, Finset.mem_range] at ha
    simp only [adjustIndex]
    split_ifs <;> omega
  · intro b hb
    simp only [Finset.mem_range] at hb
    simp only [adjustIndex]
    split_ifs <;> omega
  · intro a _
    rfl

lemma sum_take_getD {P : List ℚ} {n : ℕ} (h : P.length = n) (h1 : 1 ≤ n) :
    (P.take (n - 1)).sum + P.getD (n - 1) 0 = P.sum := by
  subst h
  have hlt : P.length - 1 < P.length := by omega
  have hs := List.sum_take_succ P (P.length - 1) hlt
  rw [show P.length - 1 + 1 = P.length by omega, List.take_length] at hs
  rw [List.getD_eq_getElem _ _ hlt, ← hs]

lemma ite_split_add (c : Prop) [Decidable c] (a b : ℚ) :
    (if c then a else b) = (if c then a else 0) + (if c then 0 else b) := by
  split_ifs <;> ring

lemma sum_ite_ne_eq_erase {n j : ℕ} (F : ℕ → ℚ) :
    ∑ k ∈ Finset.range n, (if j = k then 0 else F k) =
      ∑ k ∈ (Finset.range n).erase j, F k := by
  have h1 : ∑ k ∈ (Finset.range n).erase j, F k
      = ∑ k ∈ (Finset.range n).erase j, (if j = k then 0 else F k) := by
    apply Finset.sum_congr rfl
    intro k hk
    rw [if_neg (Ne.symm (Finset.mem_erase.mp hk).1)]
  rw [h1]
  exact (Finset.sum_erase _ (by simp)).symm

lemma inMoney_conservation : ∀ (N : ℕ) (S P : List ℚ), S.length ≤ N →
    (∀ s ∈ S, 0 < s) → P.length = S.length → 1 ≤ S.length →
    ∑ k ∈ Finset.range S.length, calculateInMoneyEquity S P k = P.sum := by
  intro N
  induction N with
  | zero => intro S P hN _ _ h1; omega
  | succ N ih =>
    intro S P hN hpos hlen h1
    by_cases hS1 : S.length = 1
    · have hP1 : P.length = 1 := by omega
      obtain ⟨b, hb⟩ := List.length_eq_one.mp hP1
      subst hb
      rw [hS1, Finset.sum_range_one, ime_len_one 0 hS1]
      simp
    · by_cases hS2 : S.length = 2
      · obtain ⟨a, b, hab⟩ := List.length_eq_two.mp hS2
        have hP2 : P.length = 2 := by omega
        obtain ⟨c, d, hcd⟩ := List.length_eq_two.mp hP2
        subst hab
        subst hcd
        have ha : (0:ℚ) < a := hpos a (by simp)
        have hb : (0:ℚ) < b := hpos b (by simp)
        have hab : a + b ≠ 0 := by positivity
        rw [show ([a, b] : List ℚ).length = 2 from rfl]
        rw [Finset.sum_range_succ, Finset.sum_range_one]
        rw [ime_len_two 0 (by rfl), ime_len_two 1 (by rfl)]
        simp only [List.getD_cons_zero, List.getD_cons_succ, List.sum_cons,
          List.sum_nil, add_zero]
        field_simp
        ring
      · have h3 : 3 ≤ S.length := by omega
        have hn1 : 1 ≤ S.length - 1 := by omega
        rw [Finset.sum_congr rfl (fun k _ => ime_ge_three k h3)]
        have hstep : ∀ k ∈ Finset.range S.length,
            (∑ i ∈ Finset.range S.length,
              if i = k then
                (calculateEliminationProbabilities S).getD i 0 * P.getD (S.length - 1) 0
              else
                (calculateEliminationProbabilities S).getD i 0 *
                  calculateInMoneyEquity (S.eraseIdx i) (P.take (S.length - 1))
                    (adjustIndex k i)) =
            (calculateEliminationProbabilities S).getD k 0 * P.getD (S.length - 1) 0 +
            ∑ i ∈ Finset.range S.length,
              (if i = k then 0 else
                (calculateEliminationProbabilities S).getD i 0 *
                  calculateInMoneyEquity (S.eraseIdx i) (P.take (S.length - 1))
                    (adjustIndex k i)) := by
          intro k hk
          rw [Finset.sum_congr rfl (fun i _ => ite_split_add (i = k) _ _),
            Finset.sum_add_distrib, Finset.sum_ite_eq' (Finset.range S.length) k, if_pos hk]
        rw [Finset.sum_congr rfl hstep, Finset.sum_add_distrib]
        have hdiag : ∑ k ∈ Finset.range S.length,
            (calculateEliminationProbabilities S).getD k 0 * P.getD (S.length - 1) 0 =
            P.getD (S.length - 1) 0 := by
          rw [← Finset.sum_mul, elim_sum_one hpos (by omega), one_mul]
        rw [hdiag]
        have hoff : ∑ k ∈ Finset.range S.length, ∑ i ∈ Finset.range S.length,
            (if i = k then 0 else
              (calculateEliminationProbabilities S).getD i 0 *
                calculateInMoneyEquity (S.eraseIdx i) (P.take (S.length - 1))
                  (adjustIndex k i)) =
            (P.take (S.length - 1)).sum := by
          rw [Finset.sum_comm]
          have hinner : ∀ i ∈ Finset.range S.length,
              (∑ k ∈ Finset.range S.length,
                if i = k then 0 else
                  (calculateEliminationProbabilities S).getD i 0 *
                    calculateInMoneyEquity (S.eraseIdx i) (P.take (S.length - 1))
                      (adjustIndex k i)) =
              (calculateEliminationProbabilities S).getD i 0 *
                (P.take (S.length - 1)).sum := by
            intro i hi
            have hi' : i < S.length := Finset.mem_range.mp hi
            have hlen' : (S.eraseIdx i).length = S.length - 1 :=
              List.length_eraseIdx_of_lt hi'
            rw [sum_ite_ne_eq_erase, ← Finset.mul_sum]
            congr 1
            rw [sum_range_erase_adjust S.length i hi']
            have htake : (P.take (S.length - 1)).length = S.length - 1 := by
              rw [List.length_take]
              omega
            rw [show Finset.range (S.length - 1) = Finset.range (S.eraseIdx i).length
                by rw [hlen']]
            exact ih (S.eraseIdx i) (P.take (S.length - 1)) (by omega)
              (eraseIdx_pos hpos i) (by omega) (by omega)
          rw [Finset.sum_congr rfl hinner, ← Finset.sum_mul,
            elim_sum_one hpos (by omega), one_mul]
        rw [hoff, add_comm]
        exact sum_take_getD hlen h1

end ICM

namespace ICM

lemma equity_conservation : ∀ (N : ℕ) (S P : List ℚ), S.length ≤ N →
    (∀ s ∈ S, 0 < s) → P ≠ [] → P.length ≤ S.length →
    ∑ k ∈ Finset.range S.length, calculatePlayerEquity S P k = P.sum := by
  intro N
  induction N with
  | zero =>
    intro S P hN _ hP hlen
    have := List.length_pos.mpr hP
    omega
  | succ N ih =>
    intro S P hN hpos hP hlen
    have hP0 : 1 ≤ P.length := List.length_pos.mpr hP
    by_cases hS1 : S.length = 1
    · have hP1 : P.length = 1 := by omega
      obtain ⟨b, hb⟩ := List.length_eq_one.mp hP1
      subst hb
      rw [hS1, Finset.sum_range_one, cpe_len_one 0 hS1]
      simp
    · by_cases heq : P.length = S.length
      · rw [Finset.sum_congr rfl (fun k _ => cpe_inMoney k hS1 (by omega))]
        exact inMoney_conservation S.length S P le_rfl hpos heq (by omega)
      · have h2 : 2 ≤ S.length := by omega
        have hlt : P.length < S.length := by omega
        rw [Finset.sum_congr rfl (fun k _ => cpe_general k h2 hlt hP)]
        rw [Finset.sum_comm]
        have hinner : ∀ i ∈ Finset.range S.length,
            (∑ k ∈ Finset.range S.length,
              if i = k then 0 else
                (calculateEliminationProbabilities S).getD i 0 *
                  calculatePlayerEquity (S.eraseIdx i) P (adjustIndex k i)) =
            (calculateEliminationProbabilities S).getD i 0 * P.sum := by
          intro i hi
          have hi' : i < S.length := Finset.mem_range.mp hi
          have hlen' : (S.eraseIdx i).length = S.length - 1 :=
            List.length_eraseIdx_of_lt hi'
          rw [sum_ite_ne_eq_erase, ← Finset.mul_sum]
          congr 1
          rw [sum_range_erase_adjust S.length i hi']
          rw [show Finset.range (S.length - 1) = Finset.range (S.eraseIdx i).length
              by rw [hlen']]
          exact ih (S.eraseIdx i) P (by omega) (eraseIdx_pos hpos i) hP (by omega)
        rw [Finset.sum_congr rfl hinner, ← Finset.sum_mul,
          elim_sum_one hpos h2, one_mul]

/-! ### Two-player closed form -/

lemma cpe_two_player (s0 s1 p0 p1 : ℚ) (rest : List ℚ) (h0 : 0 < s0) (h1 : 0 < s1) :
    calculatePlayerEquity [s0, s1] (p0 :: p1 :: rest) 0 =
      s0 / (s0 + s1) * p0 + s1 / (s0 + s1) * p1 ∧
    calculatePlayerEquity [s0, s1] (p0 :: p1 :: rest) 1 =
      s1 / (s0 + s1) * p0 + s0 / (s0 + s1) * p1 := by
  have hs : s0 + s1 ≠ 0 := by positivity
  have hl2 : ([s0, s1] : List ℚ).length = 2 := rfl
  have hle : ([s0, s1] : List ℚ).length ≤ (p0 :: p1 :: rest).length := by
    simp
  constructor
  · rw [cpe_inMoney 0 (by omega) hle, ime_len_two 0 hl2]
    simp only [List.getD_cons_zero, List.getD_cons_succ]
    field_simp
  · rw [cpe_inMoney 1 (by omega) hle, ime_len_two 1 hl2]
    simp only [List.getD_cons_zero, List.getD_cons_succ]
    field_simp

end ICM

namespace ICM

/-! ### Bridging the source's elimination probabilities to the spec's formula -/

lemma list_map_sum_getD (t : List ℚ) (f : ℚ → ℚ) :
    (t.map f).sum = ∑ j ∈ Finset.range t.length, f (t.getD j 0) := by
  induction t with
  | nil => simp
  | cons a t ih =>
    rw [List.map_cons, List.sum_cons, List.length_cons, Finset.sum_range_succ']
    simp only [List.getD_cons_succ, List.getD_cons_zero]
    rw [ih]
    ring

lemma eraseIdx_map_sum : ∀ (S : List ℚ) (i : ℕ), i < S.length → ∀ (f : ℚ → ℚ),
    ((S.eraseIdx i).map f).sum =
      ∑ j ∈ (Finset.range S.length).erase i, f (S.getD j 0) := by
  intro S
  induction S with
  | nil => intro i hi; simp at hi
  | cons a t ih =>
    intro i hi f
    cases i with
    | zero =>
      rw [show (a :: t).eraseIdx 0 = t from rfl, list_map_sum_getD, List.length_cons]
      rw [Finset.sum_erase_eq_sub (by simp), Finset.sum_range_succ']
      simp only [List.getD_cons_succ, List.getD_cons_zero]
      ring
    | succ i =>
      have hit : i < t.length := by
        simpa using hi
      rw [show (a :: t).eraseIdx (i + 1) = a :: t.eraseIdx i from rfl]
      rw [List.map_cons, List.sum_cons, List.length_cons]
      rw [Finset.sum_erase_eq_sub (Finset.mem_range.mpr (show i + 1 < t.length + 1 by omega))]
      rw [Finset.sum_range_succ']
      simp only [List.getD_cons_succ, List.getD_cons_zero]
      rw [ih i hit f, Finset.sum_erase_eq_sub (Finset.mem_range.mpr hit)]
      ring

lemma rawElimProb_eq_spec {S : List ℚ} {i : ℕ} (hi : i < S.length) (h2 : 2 ≤ S.length) :
    rawElimProb S i = specRawElimProb S i := by
  simp only [rawElimProb, specRawElimProb]
  rw [eraseIdx_map_sum S i hi, List.length_eraseIdx_of_lt hi]
  rw [Nat.cast_sub (by omega), Nat.cast_one]

lemma elim_eq_spec_map {S : List ℚ} (h2 : 2 ≤ S.length) :
    calculateEliminationProbabilities S = (List.range S.length).map (specElimProb S) := by
  simp only [calculateEliminationProbabilities]
  rw [List.map_map]
  apply List.map_congr_left
  intro a ha
  have ha' : a < S.length := List.mem_range.mp ha
  simp only [Function.comp_apply, specElimProb]
  rw [sum_map_range, rawElimProb_eq_spec ha' h2]
  congr 1
  apply Finset.sum_congr rfl
  intro k hk
  exact rawElimProb_eq_spec (Finset.mem_range.mp hk) h2

/-! ### Concrete evaluations -/

lemma elim_concrete :
    calculateEliminationProbabilities [4000, 500, 500] = [25/313, 144/313, 144/313] := by
  norm_num [calculateEliminationProbabilities, rawElimProb, List.range_succ]

lemma cpe_concrete :
    calculatePlayerEquity [4000, 500, 500] [6000, 4000] 0 = 1664000/313 := by
  have h2 : equityGo 2 [4000, 500] [6000, 4000] 0 = 52000/9 := by
    norm_num [equityGo, inMoneyGo]
  rw [calculatePlayerEquity]
  rw [show ([4000, 500, 500] : List ℚ).length = 2 + 1 from rfl, equityGo]
  norm_num [elim_concrete, h2, adjustIndex, Finset.sum_range_succ]

lemma bubble_factor_concrete :
    calculateBubbleFactor [4000, 500, 500] [6000, 4000] 0 = 313/208 := by
  simp only [calculateBubbleFactor, cpe_concrete]
  norm_num

lemma e2_3_40 : equityGo 2 [3, 40] [1] 0 = 3/43 := by
  norm_num [equityGo, calculateEliminationProbabilities, rawElimProb, adjustIndex,
    List.range_succ, Finset.sum_range_succ]

lemma e2_3_30 : equityGo 2 [3, 30] [1] 0 = 1/11 := by
  norm_num [equityGo, calculateEliminationProbabilities, rawElimProb, adjustIndex,
    List.range_succ, Finset.sum_range_succ]

lemma e2_3_1 : equityGo 2 [3, 1] [1] 0 = 3/4 := by
  norm_num [equityGo, calculateEliminationProbabilities, rawElimProb, adjustIndex,
    List.range_succ, Finset.sum_range_succ]

lemma e2_3_2 : equityGo 2 [3, 2] [1] 0 = 3/5 := by
  norm_num [equityGo, calculateEliminationProbabilities, rawElimProb, adjustIndex,
    List.range_succ, Finset.sum_range_succ]

lemma e3_3_30_40 : equityGo 3 [3, 30, 40] [1] 0 = 382191/20924101 := by
  have hp : calculateEliminationProbabilities [3, 30, 40] =
      [34000/44237, 5800/44237, 4437/44237] := by
    norm_num [calculateEliminationProbabilities, rawElimProb, List.range_succ]
  rw [show (3:ℕ) = 2 + 1 from rfl, equityGo]
  norm_num [hp, e2_3_40, e2_3_30, adjustIndex, Finset.sum_range_succ]

lemma e3_3_1_40 : equityGo 3 [3, 1, 40] [1] 0 = 70757883/1048379044 := by
  have hp : calculateEliminationProbabilities [3, 1, 40] =
      [1879120/6095227, 4043760/6095227, 172347/6095227] := by
    norm_num [calculateEliminationProbabilities, rawElimProb, List.range_succ]
  rw [show (3:ℕ) = 2 + 1 from rfl, equityGo]
  norm_num [hp, e2_3_40, e2_3_1, adjustIndex, Finset.sum_range_succ]

lemma e3_3_1_30 : equityGo 3 [3, 1, 30] [1] 0 = 125511/1432948 := by
  have hp : calculateEliminationProbabilities [3, 1, 30] =
      [9940/32567, 21420/32567, 1207/32567] := by
    norm_num [calculateEliminationProbabilities, rawElimProb, List.range_succ]
  rw [show (3:ℕ) = 2 + 1 from rfl, equityGo]
  norm_num [hp, e2_3_30, e2_3_1, adjustIndex, Finset.sum_range_succ]

lemma e3_3_2_40 : equityGo 3 [3, 2, 40] [1] 0 = 22662783/359163305 := by
  have hp : calculateEliminationProbabilities [3, 2, 40] =
      [691120/1670527, 909480/1670527, 69927/1670527] := by
    norm_num [calculateEliminationProbabilities, rawElimProb, List.range_succ]
  rw [show (3:ℕ) = 2 + 1 from rfl, equityGo]
  norm_num [hp, e2_3_40, e2_3_2, adjustIndex, Finset.sum_range_succ]

lemma e3_3_2_30 : equityGo 3 [3, 2, 30] [1] 0 = 6756/82885 := by
  have hp : calculateEliminationProbabilities [3, 2, 30] =
      [615/1507, 810/1507, 82/1507] := by
    norm_num [calculateEliminationProbabilities, rawElimProb, List.range_succ]
  rw [show (3:ℕ) = 2 + 1 from rfl, equityGo]
  norm_num [hp, e2_3_30, e2_3_2, adjustIndex, Finset.sum_range_succ]

lemma cpe_3_1_30_40 : calculatePlayerEquity [3, 1, 30, 40] [1] 0 =
    427123057756274855902483011/25129881158987024468681655748 := by
  have hp : calculateEliminationProbabilities [3, 1, 30, 40] =
      [492877000/1512571793, 897351000/1512571793, 69566068/1512571793,
        52777725/1512571793] := by
    norm_num [calculateEliminationProbabilities, rawElimProb, List.range_succ]
  rw [calculatePlayerEquity, show ([3, 1, 30, 40] : List ℚ).length = 3 + 1 from rfl,
    equityGo]
  norm_num [hp, e3_3_30_40, e3_3_1_40, e3_3_1_30, adjustIndex, Finset.sum_range_succ]

lemma cpe_3_2_30_40 : calculatePlayerEquity [3, 2, 30, 40] [1] 0 =
    121336549360919070992316/7126365583717323707894735 := by
  have hp : calculateEliminationProbabilities [3, 2, 30, 40] =
      [117994600/297630353, 145803900/297630353, 19186948/297630353,
        14644905/297630353] := by
    norm_num [calculateEliminationProbabilities, rawElimProb, List.range_succ]
  rw [calculatePlayerEquity, show ([3, 2, 30, 40] : List ℚ).length = 3 + 1 from rfl,
    equityGo]
  norm_num [hp, e3_3_30_40, e3_3_2_40, e3_3_2_30, adjustIndex, Finset.sum_range_succ]

end ICM


namespace ICM

/-! ### Claim theorems -/

/-- C1 (counterexample): the conservation law fails as soon as `payouts` has
more entries than `stacks`, which the claim explicitly includes: for
`stacks = [100]`, `payouts = [10, 5]` the total equity over all players is
`10`, not `sum payouts = 15`. -/
theorem conservation_cex :
    ¬ (∑ k ∈ Finset.range (([100] : List ℚ)).length,
        calculatePlayerEquity [100] [10, 5] k = ([10, 5] : List ℚ).sum) := by
  rw [show (([100] : List ℚ)).length = 1 from rfl, Finset.sum_range_one,
    cpe_len_one 0 (by norm_num)]
  norm_num

/-- C1 (amended): conservation of ICM equity — for positive stacks and a
non-empty payout list with no more entries than there are stacks, the equities
of all players sum exactly to the sum of the payouts. -/
theorem icm_conservation (S P : List ℚ) (hpos : ∀ s ∈ S, 0 < s) (hP : P ≠ [])
    (hlen : P.length ≤ S.length) :
    ∑ k ∈ Finset.range S.length, calculatePlayerEquity S P k = P.sum :=
  equity_conservation S.length S P le_rfl hpos hP hlen

/-- Witness for C1 at stacks `[3, 1]`, payouts `[2, 1]`. -/
theorem icm_conservation_witness :
    ∑ k ∈ Finset.range (([3, 1] : List ℚ)).length,
      calculatePlayerEquity [3, 1] [2, 1] k = ([2, 1] : List ℚ).sum :=
  icm_conservation [3, 1] [2, 1] (by norm_num) (by simp) (by norm_num)

/-- C2 (counterexample): for stacks `[4000, 500, 500]` and payouts
`[6000, 4000]` the chip leader's bubble factor is `313/208 > 1`, not `< 1`
as the claim states (the leader's chip-proportional share, 8000, exceeds even
the first prize, so it must exceed the ICM equity). -/
theorem bubble_factor_cex :
    ¬ (calculateBubbleFactor [4000, 500, 500] [6000, 4000] 0 < 1) := by
  rw [bubble_factor_concrete]
  norm_num

/-- C2 (amended): `calculateBubbleFactor` returns
`chipEquity / icmEquity` when `icmEquity > 0` and `1` otherwise, and at the
concrete input `stacks = [4000, 500, 500]`, `payouts = [6000, 4000]`,
`playerIndex = 0` the bubble factor is strictly greater than 1. -/
theorem bubble_factor_spec :
    (∀ (S P : List ℚ) (i : ℕ), calculateBubbleFactor S P i =
      if 0 < calculatePlayerEquity S P i then
        S.getD i 0 / S.sum * P.sum / calculatePlayerEquity S P i
      else 1) ∧
    1 < calculateBubbleFactor [4000, 500, 500] [6000, 4000] 0 := by
  constructor
  · intro S P i
    rfl
  · rw [bubble_factor_concrete]
    norm_num

/-- Equity is not monotone in a player's own stack for arbitrary payout
lists: with the increasing payout list `[0, 100]` a larger stack wins the
smaller first prize more often, so raising player 0's stack from 1 to 2
strictly lowers that player's equity (from 50 to 100/3). -/
lemma equity_not_payout_order_monotone :
    calculatePlayerEquity [2, 1] [0, 100] 0 < calculatePlayerEquity [1, 1] [0, 100] 0 := by
  rw [(cpe_two_player 2 1 0 100 [] (by norm_num) (by norm_num)).1,
    (cpe_two_player 1 1 0 100 [] (by norm_num) (by norm_num)).1]
  norm_num

/-- Two-player monotonicity: when the first payout is at least the second,
enlarging a player's stack while the other stack and the payouts stay fixed
cannot decrease that player's equity (either seat). -/
lemma equity_monotone_two_player (s0 s0' s1 p0 p1 : ℚ) (rest : List ℚ)
    (h0 : 0 < s0) (h0' : s0 < s0') (h1 : 0 < s1) (hp : p1 ≤ p0) :
    calculatePlayerEquity [s0, s1] (p0 :: p1 :: rest) 0 ≤
      calculatePlayerEquity [s0', s1] (p0 :: p1 :: rest) 0 ∧
    calculatePlayerEquity [s1, s0] (p0 :: p1 :: rest) 1 ≤
      calculatePlayerEquity [s1, s0'] (p0 :: p1 :: rest) 1 := by
  have h0'' : 0 < s0' := h0.trans h0'
  have key : s0 / (s0 + s1) ≤ s0' / (s0' + s1) := by
    rw [div_le_div_iff₀ (by positivity) (by positivity)]
    nlinarith
  constructor
  · rw [(cpe_two_player s0 s1 p0 p1 rest h0 h1).1,
      (cpe_two_player s0' s1 p0 p1 rest h0'' h1).1]
    have e1 : s1 / (s0 + s1) = 1 - s0 / (s0 + s1) := by
      field_simp
    have e2 : s1 / (s0' + s1) = 1 - s0' / (s0' + s1) := by
      field_simp
    rw [e1, e2]
    nlinarith [mul_nonneg (sub_nonneg.mpr key) (sub_nonneg.mpr hp)]
  · rw [(cpe_two_player s1 s0 p0 p1 rest h1 h0).2,
      (cpe_two_player s1 s0' p0 p1 rest h1 h0'').2]
    have key2 : s0 / (s1 + s0) ≤ s0' / (s1 + s0') := by
      rw [div_le_div_iff₀ (by positivity) (by positivity)]
      nlinarith
    have e1 : s1 / (s1 + s0) = 1 - s0 / (s1 + s0) := by
      field_simp
    have e2 : s1 / (s1 + s0') = 1 - s0' / (s1 + s0') := by
      field_simp
    rw [e1, e2]
    nlinarith [mul_nonneg (sub_nonneg.mpr key2) (sub_nonneg.mpr hp)]

/-- Equity is not monotone (downward) in an *opponent's* stack either: at
stacks `[3, 1, 30, 40]` with the single payout `[1]`, raising opponent 1's
stack from 1 to 2 strictly *raises* player 0's equity.  This refutes the
branch-value ordering (removing a larger opponent is always better) that an
inductive proof of own-stack monotonicity for arbitrary player counts would
rest on. -/
lemma equity_not_opponent_monotone :
    calculatePlayerEquity [3, 1, 30, 40] [1] 0 <
      calculatePlayerEquity [3, 2, 30, 40] [1] 0 := by
  rw [cpe_3_1_30_40, cpe_3_2_30_40]
  norm_num

/-- C4: for at least two positive stacks, `calculateEliminationProbabilities`
returns one entry per player, each entry is the specification's normalized
`p_i = H_i / (H_i + stacks[i])` with `H_i` the harmonic mean of the other
stacks, all entries are non-negative, and the entries sum to 1. -/
theorem elimination_probabilities_spec (S : List ℚ) (hpos : ∀ s ∈ S, 0 < s)
    (h2 : 2 ≤ S.length) :
    (calculateEliminationProbabilities S).length = S.length ∧
    calculateEliminationProbabilities S = (List.range S.length).map (specElimProb S) ∧
    (∀ q ∈ calculateEliminationProbabilities S, 0 ≤ q) ∧
    (calculateEliminationProbabilities S).sum = 1 := by
  refine ⟨elim_length S, elim_eq_spec_map h2, ?_, elim_list_sum_one hpos h2⟩
  intro q hq
  simp only [calculateEliminationProbabilities] at hq
  rw [List.map_map] at hq
  obtain ⟨a, ha, rfl⟩ := List.mem_map.mp hq
  have ha' : a < S.length := List.mem_range.mp ha
  simp only [Function.comp_apply]
  have hT : 0 < ((List.range S.length).map (rawElimProb S)).sum := by
    rw [sum_map_range]
    exact rawElimSum_pos hpos h2
  exact le_of_lt (div_pos (rawElimProb_pos hpos h2 ha') hT)

/-- Witness for C4 at stacks `[1, 2]`. -/
theorem elimination_probabilities_spec_witness :
    (calculateEliminationProbabilities [1, 2]).length = ([1, 2] : List ℚ).length ∧
    (calculateEliminationProbabilities [1, 2]).sum = 1 :=
  ⟨(elimination_probabilities_spec [1, 2] (by norm_num) (by norm_num)).1,
    (elimination_probabilities_spec [1, 2] (by norm_num) (by norm_num)).2.2.2⟩

end ICM

namespace ICM

/-- C5: degenerate zero stack — in the IEEE-754 special-value model,
`calculateICM` at stacks `[1000, 0, 500]`, payouts `[1000, 600]` succeeds
(does not throw) for every player index, and none of the four returned fields
(`equity`, `chipEV`, `dollarEV`, `riskPremium`) is NaN: the `1/0` term the
zero stack feeds into the harmonic-mean computation yields `+Infinity`, which
collapses back to finite values downstream instead of producing NaN. -/
theorem degenerate_zero_stack_no_nan :
    okNoNaN (calculateICMJs [JsNum.fin 1000 1, JsNum.fin 0 1, JsNum.fin 500 1]
      [JsNum.fin 1000 1, JsNum.fin 600 1] 0) = true ∧
    okNoNaN (calculateICMJs [JsNum.fin 1000 1, JsNum.fin 0 1, JsNum.fin 500 1]
      [JsNum.fin 1000 1, JsNum.fin 600 1] 1) = true ∧
    okNoNaN (calculateICMJs [JsNum.fin 1000 1, JsNum.fin 0 1, JsNum.fin 500 1]
      [JsNum.fin 1000 1, JsNum.fin 600 1] 2) = true := by
  decide

/-- C6: termination of the equity recursion — fuel equal to the number of
players is always sufficient: any fuel at least `stacks.length` computes the
same value as `calculatePlayerEquity` / `calculateInMoneyEquity` (whose fuel
is exactly `stacks.length`), because every recursive call shortens the stack
list by exactly one. -/
theorem recursion_depth_bound (fuel : ℕ) (S P : List ℚ) (p : ℕ) (h : S.length ≤ fuel) :
    equityGo fuel S P p = calculatePlayerEquity S P p ∧
    inMoneyGo fuel S P p = calculateInMoneyEquity S P p :=
  ⟨equityGo_fuel S.length fuel S P p le_rfl h, inMoneyGo_fuel S.length fuel S P p le_rfl h⟩

/-- Witness for C6: fuel 5 suffices for the two-player input. -/
theorem recursion_depth_bound_witness :
    ([3, 1] : List ℚ).length ≤ 5 ∧
    equityGo 5 [3, 1] [2, 1] 0 = calculatePlayerEquity [3, 1] [2, 1] 0 :=
  ⟨by norm_num, (recursion_depth_bound 5 [3, 1] [2, 1] 0 (by norm_num)).1⟩

/-- C7: `calculateICM` fails (with the invalid-input error) exactly when
`stacks` or `payouts` is empty; on non-empty inputs with a valid player index
it returns the record with `dollarEV = equity` and
`riskPremium = chipEV - dollarEV`, where
`chipEV = (stacks[playerIndex] / totalChips) * sum payouts`. -/
theorem calculateICM_spec (S P : List ℚ) (i : ℕ) :
    ((calculateICM S P i).isOk = false ↔ S = [] ∨ P = []) ∧
    (S ≠ [] → P ≠ [] → i < S.length →
      calculateICM S P i = Except.ok
        ⟨calculatePlayerEquity S P i,
          S.getD i 0 / S.sum * P.sum,
          calculatePlayerEquity S P i,
          S.getD i 0 / S.sum * P.sum - calculatePlayerEquity S P i⟩) := by
  constructor
  · constructor
    · intro h
      by_contra hc
      push_neg at hc
      obtain ⟨h1, h2⟩ := hc
      simp only [calculateICM] at h
      rw [if_neg (by simp [List.length_eq_zero, h1, h2])] at h
      simp [Except.isOk, Except.toBool] at h
    · intro h
      simp only [calculateICM]
      rw [if_pos (by rcases h with h | h <;> simp [h])]
      rfl
  · intro h1 h2 _
    simp only [calculateICM]
    rw [if_neg (by simp [List.length_eq_zero, h1, h2])]

/-- Witness for C7 at stacks `[3000, 1000]`, payouts `[600, 400]`, player 0:
equity 550, chipEV 750, riskPremium 200. -/
theorem calculateICM_spec_witness :
    calculateICM [3000, 1000] [600, 400] 0 = Except.ok ⟨550, 750, 550, 200⟩ := by
  rw [(calculateICM_spec [3000, 1000] [600, 400] 0).2 (by simp) (by simp) (by norm_num)]
  have h550 : calculatePlayerEquity [3000, 1000] [600, 400] 0 = 550 := by
    rw [(cpe_two_player 3000 1000 600 400 [] (by norm_num) (by norm_num)).1]
    norm_num
  rw [h550]
  norm_num [ICMResult.mk.injEq]

/-- C8: two-player closed form — for positive stacks `s0, s1` and at least
two payouts, player 0's equity is
`s0/(s0+s1) * payouts[0] + s1/(s0+s1) * payouts[1]`, mirrored for player 1. -/
theorem two_player_closed_form (s0 s1 p0 p1 : ℚ) (rest : List ℚ)
    (h0 : 0 < s0) (h1 : 0 < s1) :
    calculatePlayerEquity [s0, s1] (p0 :: p1 :: rest) 0 =
      s0 / (s0 + s1) * p0 + s1 / (s0 + s1) * p1 ∧
    calculatePlayerEquity [s0, s1] (p0 :: p1 :: rest) 1 =
      s1 / (s0 + s1) * p0 + s0 / (s0 + s1) * p1 :=
  cpe_two_player s0 s1 p0 p1 rest h0 h1

/-- Witness for C8: `calculatePlayerEquity [3000, 1000] [600, 400] 0 = 550`
exactly. -/
theorem two_player_closed_form_witness :
    calculatePlayerEquity [3000, 1000] [600, 400] 0 = 550 := by
  rw [(two_player_closed_form 3000 1000 600 400 [] (by norm_num) (by norm_num)).1]
  norm_num

/-- C9: `calculatePushFoldEquity` always returns `foldEV = 0`, and
`pushEV = foldEquity * pot + (1 - foldEquity) *
(0.5 * (pot + effectiveStack) - 0.5 * effectiveStack)` with
`pot = blinds + antes`, `effectiveStack = min heroStack villainStack`, and
the call equity fixed at the constant `0.5`. -/
theorem push_fold_equity_spec
    (heroStack villainStack blinds antes callingRange foldEquity : ℚ) :
    (calculatePushFoldEquity heroStack villainStack blinds antes callingRange
      foldEquity).foldEV = 0 ∧
    (calculatePushFoldEquity heroStack villainStack blinds antes callingRange
      foldEquity).pushEV =
      foldEquity * (blinds + antes) + (1 - foldEquity) *
        (1 / 2 * (blinds + antes + min heroStack villainStack) -
          1 / 2 * min heroStack villainStack) := by
  constructor
  · rfl
  · simp only [calculatePushFoldEquity]
    norm_num

/-- C10: the returned `pushEV` does not depend on `heroStack`,
`villainStack` or `callingRange`: because the call equity is the constant
`0.5`, the effective-stack terms cancel and
`pushEV = (blinds + antes) * (foldEquity + 0.5 * (1 - foldEquity))` for every
input. -/
theorem push_ev_stack_independent
    (heroStack villainStack blinds antes callingRange foldEquity hs2 vs2 cr2 : ℚ) :
    (calculatePushFoldEquity heroStack villainStack blinds antes callingRange
      foldEquity).pushEV =
      (blinds + antes) * (foldEquity + 1 / 2 * (1 - foldEquity)) ∧
    (calculatePushFoldEquity heroStack villainStack blinds antes callingRange
      foldEquity).pushEV =
      (calculatePushFoldEquity hs2 vs2 blinds antes cr2 foldEquity).pushEV := by
  constructor
  · simp only [calculatePushFoldEquity]
    ring
  · simp only [calculatePushFoldEquity]
    ring

end ICM
